import Mathlib

/-!
Verification development for the chronicle release-summarization engine
(package `github` in `chronicle/release/summarizer/github/summarizer.go`,
together with the issue-filter / label-classification collaborators it uses).

Go strings are embedded as `List Char`; timestamps as `Int`; fallible Go
functions return `Except (List Char)` where the `List Char` is the error
message.  The external collaborators (git interface, GitHub API client) are
embedded as an explicit `Env` record of their results, so that every public
operation is a pure function of the collaborator responses.
-/

/-! ### Go string primitives used by the summarizer -/

/-- Embedding of Go `strings.Split(s, sep)` for a one-character separator:
splits on every occurrence of `c`; the empty string splits to `[[]]`. -/
def splitOnChar (c : Char) : List Char → List (List Char)
  | [] => [[]]
  | x :: xs =>
    if x = c then [] :: splitOnChar c xs
    else
      match splitOnChar c xs with
      | [] => [[x]]
      | y :: ys => (x :: y) :: ys

/-- Embedding of Go `strings.TrimSuffix(s, suffix)`: drops a trailing
`suf` when present, otherwise returns the string unchanged. -/
def trimSuffix (l suf : List Char) : List Char :=
  if suf.isSuffixOf l then l.take (l.length - suf.length) else l

/-- Embedding of the Go indexing `fields[len(fields)-1]` used on the result
of `strings.Split` (which is never empty); returns `[]` on an empty list. -/
def lastD : List (List Char) → List Char
  | [] => []
  | [x] => x
  | _ :: y :: ys => lastD (y :: ys)

/-! ### Data model -/

/-- A closed issue/PR as returned by the tracker collaborator
(`fetchClosedIssues`); per the data model only closed items are fetched, so
the always-`closed` state field is omitted. -/
structure Issue where
  number : Nat
  title : List Char
  url : List Char
  labels : List (List Char)
  closedAt : Int
deriving DecidableEq, Repr

/-- A git tag resolved by the VCS collaborator (`git.SearchForTag`). -/
structure Tag where
  name : List Char
  timestamp : Int
deriving DecidableEq, Repr

/-- Wire form of a release as returned by `fetchAllReleases`, carrying the
draft flag. -/
structure ghRelease where
  tag : List Char
  date : Int
  draft : Bool
deriving DecidableEq, Repr

/-- The simplified release value (`release.Release`) returned to callers. -/
structure Release where
  version : List Char
  date : Int
deriving DecidableEq, Repr

/-- One external reference attached to a change summary
(`change.Reference`). -/
structure Reference where
  text : List Char
  url : List Char
deriving DecidableEq, Repr

/-- A change summary (`change.Summary`). -/
structure Summary where
  text : List Char
  changeTypes : List (List Char)
  timestamp : Int
  references : List Reference
deriving DecidableEq, Repr

/-! ### Label classification table (component 4.1) -/

/-- Modelled from the spec: the label classification table (`labelSet`) is
defined in repository code outside `src/`; per §3/§4.1 it is an immutable
mapping from a label name to an ordered set of change-type tags. -/
structure labelSet where
  entries : List (List Char × List (List Char))
deriving DecidableEq, Repr

/-- Modelled from the spec: `labels()` returns every label known to the
table (§4.1). -/
def labelSet.labels (t : labelSet) : List (List Char) :=
  t.entries.map Prod.fst

/-- Change types mapped from a single label: the table entry when the label
is a key, the empty set otherwise (unknown labels are silently ignored). -/
def labelSet.changeTypesOfLabel (t : labelSet) (lbl : List Char) : List (List Char) :=
  match t.entries.find? (fun e => e.1 = lbl) with
  | some e => e.2
  | none => []

/-- Modelled from the spec: `changeTypes(labels)` returns the union, in a
stable deterministic (first-occurrence) order and duplicate-free, of every
change-type mapped from any label in `labels` (§4.1, §8). -/
def labelSet.changeTypes (t : labelSet) (lbls : List (List Char)) : List (List Char) :=
  (lbls.map t.changeTypesOfLabel).flatten.foldl
    (fun acc ct => if acc.contains ct then acc else acc ++ [ct]) []

def bugL : List Char := "bug".toList
def fixedL : List Char := "fixed".toList
def enhancementL : List Char := "enhancement".toList
def addedL : List Char := "added".toList
def breakingL : List Char := "breaking".toList
def breakingChangeL : List Char := "breaking-change".toList

/-- Modelled from the spec: the built-in default table
(`defaultLabelChangeTypes`), e.g. bug→fixed, enhancement→added,
breaking→breaking-change (§4.1: the exact default set is policy). -/
def defaultLabelChangeTypes : labelSet :=
  ⟨[(bugL, [fixedL]), (enhancementL, [addedL]), (breakingL, [breakingChangeL])]⟩

/-! ### Issue filter pipeline (component 4.2) -/

/-- A filter is a predicate over an issue (`issueFilter`). -/
def issueFilter : Type := Issue → Bool

/-- Modelled from the spec: `issuesAfter(t)` keeps an issue iff
`issue.closedAt > t` (strict) (§4.2); defined in repository code outside
`src/`. -/
def issuesAfter (t : Int) : issueFilter :=
  fun issue => decide (t < issue.closedAt)

/-- Modelled from the spec: `issuesBefore(t)` keeps an issue iff
`issue.closedAt <= t` (inclusive upper bound) (§4.2); defined in repository
code outside `src/`. -/
def issuesBefore (t : Int) : issueFilter :=
  fun issue => decide (issue.closedAt ≤ t)

/-- Modelled from the spec: `issuesWithLabel(labels...)` keeps an issue iff
its label set has a non-empty intersection with the supplied labels (§4.2);
defined in repository code outside `src/`. -/
def issuesWithLabel (lbls : List (List Char)) : issueFilter :=
  fun issue => issue.labels.any (fun l => lbls.contains l)

/-- Modelled from the spec: `filterIssues(issues, ...filters)` keeps an
issue iff all filters return true, preserving input order (§4.2); defined
in repository code outside `src/`. -/
def filterIssues (issues : List Issue) (filters : List issueFilter) : List Issue :=
  issues.filter (fun issue => filters.all (fun f => f issue))

/-! ### The summarizer and its collaborators -/

/-- The `ChangeSummarizer` struct: repository path, extracted GitHub
coordinates, and the label classification table. -/
structure ChangeSummarizer where
  repoPath : List Char
  userName : List Char
  repoName : List Char
  changeTypeByLabel : labelSet
deriving DecidableEq, Repr

/-- Responses of the external collaborators (git interface and GitHub API
client) consumed by the summarizer; each public operation is a pure
function of these. -/
structure Env where
  fetchClosedIssues : List Char → List Char → Except (List Char) (List Issue)
  fetchAllReleases : List Char → List Char → Except (List Char) (List ghRelease)
  searchForTag : List Char → List Char → Except (List Char) Tag

def gitAtL : List Char := "git@".toList
def dotGitL : List Char := ".git".toList
def httpsGithubL : List Char := "https://github.com/".toList
def slashL : List Char := "/".toList
def treeSegL : List Char := "/tree/".toList
def compareSegL : List Char := "/compare/".toList
def dotsL : List Char := "...".toList
def failedParseL : List Char := "failed to parse repo=".toList
def urlSufL : List Char := " URL".toList
def errFetchReleasesL : List Char := "unable to fetch all releases: ".toList
def errNoLatestL : List Char := "unable to find latest release".toList

/-- Embedding of `extractGithubUserAndRepo` (summarizer.go lines 130-142):
requires the `git@` prefix, trims a `.git` suffix, splits on `:`, takes the
last field, splits it on `/`, and requires exactly two segments. -/
def extractGithubUserAndRepo (url : List Char) : List Char × List Char :=
  if gitAtL.isPrefixOf url then
    let fields := splitOnChar ':' (trimSuffix url dotGitL)
    let pair := splitOnChar '/' (lastD fields)
    if pair.length = 2 then (pair.getD 0 [], pair.getD 1 [])
    else ([], [])
  else ([], [])

/-- Error message of `NewChangeSummarizer` for an unparsable remote URL
(`failed to parse repo=%q URL`). -/
def parseRepoErr (url : List Char) : List Char :=
  failedParseL ++ '"' :: (url ++ '"' :: urlSufL)

/-- Embedding of `NewChangeSummarizer` (summarizer.go lines 44-61),
parametrized by the result of the `git.RemoteUrl` collaborator call. -/
def NewChangeSummarizer (remoteUrlRes : Except (List Char) (List Char))
    (path : List Char) : Except (List Char) ChangeSummarizer :=
  match remoteUrlRes with
  | .error e => .error e
  | .ok repoUrl =>
    let p := extractGithubUserAndRepo repoUrl
    if p.1 = [] ∨ p.2 = [] then .error (parseRepoErr repoUrl)
    else .ok { repoPath := path, userName := p.1, repoName := p.2,
               changeTypeByLabel := defaultLabelChangeTypes }

/-- Embedding of `TagURL` (summarizer.go lines 33-36):
`https://github.com/<user>/<repo>/tree/<tag>`. -/
def TagURL (s : ChangeSummarizer) (tag : List Char) : List Char :=
  httpsGithubL ++ s.userName ++ slashL ++ s.repoName ++ treeSegL ++ tag

/-- Embedding of `ChangesURL` (summarizer.go lines 38-42):
`https://github.com/<user>/<repo>/compare/<since>...<until>`. -/
def ChangesURL (s : ChangeSummarizer) (sinceRef untilRef : List Char) : List Char :=
  httpsGithubL ++ s.userName ++ slashL ++ s.repoName ++ compareSegL ++
    sinceRef ++ dotsL ++ untilRef

/-- Modelled from the spec: `latestNonDraftRelease` (component 4.3, defined
in repository code outside `src/`) scans the releases in order and returns
the first whose draft flag is false, or none. -/
def latestNonDraftRelease (releases : List ghRelease) : Option ghRelease :=
  releases.find? (fun r => !r.draft)

/-- Embedding of `LastRelease` (summarizer.go lines 63-76). -/
def LastRelease (s : ChangeSummarizer) (env : Env) : Except (List Char) Release :=
  match env.fetchAllReleases s.userName s.repoName with
  | .error e => .error (errFetchReleasesL ++ e)
  | .ok releases =>
    match latestNonDraftRelease releases with
    | some r => .ok { version := r.tag, date := r.date }
    | none => .error errNoLatestL

/-- Embedding of the summary-emission loop of `Changes` (summarizer.go
lines 105-124): one summary per issue whose classification is non-empty,
in input order. -/
def summarize (s : ChangeSummarizer) (issues : List Issue) : List Summary :=
  issues.filterMap (fun issue =>
    let changeTypes := labelSet.changeTypes s.changeTypeByLabel issue.labels
    if changeTypes.length > 0 then
      some { text := issue.title, changeTypes := changeTypes,
             timestamp := issue.closedAt,
             references := [{ text := '#' :: (Nat.repr issue.number).toList,
                              url := issue.url }] }
    else none)

/-- Embedding of `Changes` (summarizer.go lines 78-126): fetch all closed
issues, resolve `sinceRef`, build the filter set (appending an upper bound
only when `untilRef` is non-empty), filter, then emit summaries. -/
def Changes (s : ChangeSummarizer) (env : Env)
    (sinceRef untilRef : List Char) : Except (List Char) (List Summary) :=
  match env.fetchClosedIssues s.userName s.repoName with
  | .error e => .error e
  | .ok allClosedIssues =>
    match env.searchForTag s.repoPath sinceRef with
    | .error e => .error e
    | .ok sinceTag =>
      let filters := [issuesAfter sinceTag.timestamp,
                      issuesWithLabel (labelSet.labels s.changeTypeByLabel)]
      if untilRef = [] then
        .ok (summarize s (filterIssues allClosedIssues filters))
      else
        match env.searchForTag s.repoPath untilRef with
        | .error e => .error e
        | .ok untilTag =>
          .ok (summarize s (filterIssues allClosedIssues
                (filters ++ [issuesBefore untilTag.timestamp])))

/-- Modelled from the spec: the SSH remote-URL shape `git@host:owner/repo.git`
recognized by construction (§4.5), as a decidable check: a `git@` prefix, a
`.git` suffix, then exactly one `:` separating a non-empty host from a path
of exactly two non-empty `/`-segments. -/
def matchesSshRemoteShape (url : List Char) : Bool :=
  gitAtL.isPrefixOf url &&
  dotGitL.isSuffixOf url &&
  (match splitOnChar ':' (trimSuffix (url.drop 4) dotGitL) with
   | [host, path] =>
     !host.isEmpty &&
     (match splitOnChar '/' path with
      | [o, r] => !o.isEmpty && !r.isEmpty
      | _ => false)
   | _ => false)

/-! ### Concrete values used by the witnesses and counterexamples -/

def acmeL : List Char := "acme".toList
def widgetsL : List Char := "widgets".toList
def ownerL : List Char := "owner".toList
def repoL : List Char := "repo".toList
def v120L : List Char := "v1.2.0".toList
def urlAcme : List Char := "git@github.com:acme/widgets.git".toList
def urlTreeV120L : List Char := "https://github.com/acme/widgets/tree/v1.2.0".toList
def urlNoColon : List Char := "git@a/b.git".toList
def gitAtAL : List Char := "git@a".toList
def bL : List Char := "b".toList
def wontfixL : List Char := "wontfix".toList
def sinceRefL : List Char := "v1.0.0".toList
def untilRefL : List Char := "v1.1.0".toList
def efetchL : List Char := "fetch failed".toList
def etagL : List Char := "tag not found".toList

def cAcmeSummarizer : ChangeSummarizer :=
  { repoPath := [], userName := acmeL, repoName := widgetsL,
    changeTypeByLabel := defaultLabelChangeTypes }

def cIssue1 : Issue :=
  { number := 1, title := "t1".toList, url := "u1".toList,
    labels := [bugL], closedAt := 5 }

def cIssue2 : Issue :=
  { number := 2, title := "t2".toList, url := "u2".toList,
    labels := [wontfixL], closedAt := 7 }

def cIssue3 : Issue :=
  { number := 3, title := "t3".toList, url := "u3".toList,
    labels := [bugL], closedAt := 2 }

def cIssueAt5 : Issue :=
  { number := 9, title := "t9".toList, url := "u9".toList,
    labels := [], closedAt := 5 }

def cRelDraft : ghRelease := { tag := "v2.0.0".toList, date := 100, draft := true }

def cRelFinal : ghRelease := { tag := "v1.9.0".toList, date := 90, draft := false }

def cEnv : Env :=
  { fetchClosedIssues := fun _ _ => .ok [cIssue1, cIssue2, cIssue3],
    fetchAllReleases := fun _ _ => .ok [cRelDraft, cRelFinal],
    searchForTag := fun _ r =>
      if r = sinceRefL then .ok { name := r, timestamp := 3 }
      else if r = untilRefL then .ok { name := r, timestamp := 6 }
      else .error etagL }

def cEnv2 : Env :=
  { fetchClosedIssues := fun _ _ => .ok [cIssue1, cIssue2, cIssue3],
    fetchAllReleases := fun _ _ => .error efetchL,
    searchForTag := fun _ r =>
      if r = sinceRefL then .ok { name := r, timestamp := 3 }
      else .error efetchL }

def cEnvFail : Env :=
  { fetchClosedIssues := fun _ _ => .error efetchL,
    fetchAllReleases := fun _ _ => .error efetchL,
    searchForTag := fun _ _ => .error etagL }

def cEnvEmpty : Env :=
  { fetchClosedIssues := fun _ _ => .ok [],
    fetchAllReleases := fun _ _ => .ok [],
    searchForTag := fun _ r =>
      if r = sinceRefL then .ok { name := r, timestamp := 3 }
      else .error etagL }

def cFilterA : issueFilter := issuesAfter 0

def cFilterB : issueFilter := issuesWithLabel [bugL]

def cSummary1 : Summary :=
  { text := "t1".toList, changeTypes := [fixedL], timestamp := 5,
    references := [{ text := "#1".toList, url := "u1".toList }] }

/-! ### Helper lemmas about the string primitives -/

theorem splitOnChar_ne_nil (c : Char) (l : List Char) : splitOnChar c l ≠ [] := by
  induction l with
  | nil => simp [splitOnChar]
  | cons x xs ih =>
    simp only [splitOnChar]
    split
    · simp
    · split
      · simp
      · simp

theorem splitOnChar_of_not_mem (c : Char) (l : List Char) (h : c ∉ l) :
    splitOnChar c l = [l] := by
  induction l with
  | nil => rfl
  | cons x xs ih =>
    have hx : ¬ x = c := fun e => h (e ▸ List.mem_cons_self x xs)
    have hxs : c ∉ xs := fun m => h (List.mem_cons_of_mem x m)
    simp [splitOnChar, hx, ih hxs]

theorem two_le_splitOnChar_length (c : Char) (l : List Char) (h : c ∈ l) :
    2 ≤ (splitOnChar c l).length := by
  induction l with
  | nil => cases h
  | cons x xs ih =>
    by_cases hx : x = c
    · have hne := splitOnChar_ne_nil c xs
      have hpos : 0 < (splitOnChar c xs).length := List.length_pos.mpr hne
      simp only [splitOnChar, if_pos hx, List.length_cons]
      omega
    · have hmem : c ∈ xs := by
        rcases List.mem_cons.mp h with h' | h'
        · exact absurd h'.symm hx
        · exact h'
      simp only [splitOnChar, if_neg hx]
      cases hs : splitOnChar c xs with
      | nil => exact absurd hs (splitOnChar_ne_nil c xs)
      | cons y ys =>
        have := ih hmem
        rw [hs] at this
        simpa using this

theorem lastD_splitOnChar_append (c : Char) (l1 l2 : List Char) (h : c ∉ l2) :
    lastD (splitOnChar c (l1 ++ c :: l2)) = l2 := by
  induction l1 with
  | nil =>
    simp only [List.nil_append, splitOnChar, if_pos rfl,
      splitOnChar_of_not_mem c l2 h]
    rfl
  | cons x l1' ih =>
    by_cases hx : x = c
    · simp only [List.cons_append, splitOnChar, if_pos hx]
      cases hs : splitOnChar c (l1' ++ c :: l2) with
      | nil => exact absurd hs (splitOnChar_ne_nil c _)
      | cons y ys =>
        rw [hs] at ih
        simpa [lastD] using ih
    · simp only [List.cons_append, splitOnChar, if_neg hx]
      cases hs : splitOnChar c (l1' ++ c :: l2) with
      | nil => exact absurd hs (splitOnChar_ne_nil c _)
      | cons y ys =>
        have hlen : 2 ≤ (splitOnChar c (l1' ++ c :: l2)).length :=
          two_le_splitOnChar_length c _ (by simp)
        rw [hs] at hlen
        cases ys with
        | nil => simp at hlen
        | cons z zs =>
          rw [hs] at ih
          simpa [lastD] using ih

theorem splitOnChar_append_cons (c : Char) (l1 l2 : List Char)
    (h1 : c ∉ l1) (h2 : c ∉ l2) :
    splitOnChar c (l1 ++ c :: l2) = [l1, l2] := by
  induction l1 with
  | nil =>
    simp [splitOnChar, splitOnChar_of_not_mem c l2 h2]
  | cons x l1' ih =>
    have hx : ¬ x = c := fun e => h1 (e ▸ List.mem_cons_self x l1')
    have h1' : c ∉ l1' := fun m => h1 (List.mem_cons_of_mem x m)
    simp only [List.cons_append, splitOnChar, if_neg hx, List.append_eq, ih h1']

theorem isPrefixOf_append_self (l t : List Char) : l.isPrefixOf (l ++ t) = true := by
  induction l with
  | nil => cases t <;> rfl
  | cons x xs ih => simp [List.isPrefixOf, ih]

theorem isSuffixOf_append_self (l t : List Char) : t.isSuffixOf (l ++ t) = true := by
  simp only [List.isSuffixOf, List.reverse_append]
  exact isPrefixOf_append_self t.reverse l.reverse

theorem trimSuffix_append (l suf : List Char) : trimSuffix (l ++ suf) suf = l := by
  simp only [trimSuffix, isSuffixOf_append_self, if_pos, List.length_append,
    Nat.add_sub_cancel]
  exact List.take_left l suf

theorem extractGithubUserAndRepo_ssh (h owner repo : List Char)
    (hoc : ':' ∉ owner) (hrc : ':' ∉ repo) (hos : '/' ∉ owner) (hrs : '/' ∉ repo) :
    extractGithubUserAndRepo (((gitAtL ++ h) ++ ':' :: (owner ++ '/' :: repo)) ++ dotGitL)
      = (owner, repo) := by
  have hmid : ':' ∉ owner ++ '/' :: repo := by
    intro hm
    rcases List.mem_append.mp hm with hm | hm
    · exact hoc hm
    · rcases List.mem_cons.mp hm with hm | hm
      · exact absurd hm (by decide)
      · exact hrc hm
  have hpre : gitAtL.isPrefixOf
      (((gitAtL ++ h) ++ ':' :: (owner ++ '/' :: repo)) ++ dotGitL) = true := by
    have he : ((gitAtL ++ h) ++ ':' :: (owner ++ '/' :: repo)) ++ dotGitL
        = gitAtL ++ (h ++ (':' :: (owner ++ '/' :: repo) ++ dotGitL)) := by
      simp [List.append_assoc]
    rw [he]
    exact isPrefixOf_append_self _ _
  unfold extractGithubUserAndRepo
  rw [hpre]
  simp only [if_true, trimSuffix_append]
  rw [lastD_splitOnChar_append ':' (gitAtL ++ h) (owner ++ '/' :: repo) hmid]
  rw [splitOnChar_append_cons '/' owner repo hos hrs]
  simp

instance instDecEqExcept {ε α : Type} [DecidableEq ε] [DecidableEq α] :
    DecidableEq (Except ε α) := fun a b =>
  match a, b with
  | .error e, .error f => decidable_of_iff (e = f) (by simp)
  | .ok x, .ok y => decidable_of_iff (x = y) (by simp)
  | .error _, .ok _ => isFalse (by simp)
  | .ok _, .error _ => isFalse (by simp)

theorem summarize_eq_filter_map (s : ChangeSummarizer) (issues : List Issue) :
    summarize s issues =
      ((issues.filter (fun issue =>
          decide (labelSet.changeTypes s.changeTypeByLabel issue.labels ≠ []))).map
        (fun issue =>
          { text := issue.title,
            changeTypes := labelSet.changeTypes s.changeTypeByLabel issue.labels,
            timestamp := issue.closedAt,
            references := [{ text := '#' :: (Nat.repr issue.number).toList,
                             url := issue.url }] })) := by
  induction issues with
  | nil => rfl
  | cons i is ih =>
    by_cases hc : labelSet.changeTypes s.changeTypeByLabel i.labels = []
    · simp [summarize, List.filterMap_cons, List.filter_cons, hc] at ih ⊢
      exact ih
    · have hl : 0 < (labelSet.changeTypes s.changeTypeByLabel i.labels).length :=
        List.length_pos.mpr hc
      simp [summarize, List.filterMap_cons, List.filter_cons, hc, hl] at ih ⊢
      exact ih

/-- C3: the time-window boundaries are asymmetric: `issuesAfter t` keeps an
issue iff its `closedAt` is strictly greater than `t`, `issuesBefore t`
keeps it iff `closedAt ≤ t`; an issue closed exactly at the since tag's
timestamp is excluded and one closed exactly at the until tag's timestamp
is included. -/
theorem issue_filter_boundaries :
    (∀ (issue : Issue) (t : Int), issuesAfter t issue = true ↔ t < issue.closedAt)
    ∧ (∀ (issue : Issue) (t : Int), issuesBefore t issue = true ↔ issue.closedAt ≤ t)
    ∧ (∀ (issue : Issue) (t : Int), issue.closedAt = t →
        issuesAfter t issue = false ∧ issuesBefore t issue = true) := by
  refine ⟨fun issue t => ?_, fun issue t => ?_, fun issue t h => ?_⟩
  · simp [issuesAfter]
  · simp [issuesBefore]
  · simp [issuesAfter, issuesBefore, h]

theorem issue_filter_boundaries_witness :
    issuesAfter 5 cIssueAt5 = false ∧ issuesBefore 5 cIssueAt5 = true :=
  issue_filter_boundaries.2.2 cIssueAt5 5 rfl

/-- C8: `filterIssues` keeps an issue iff all supplied filters accept it,
is invariant under permuting the filters, preserves the input order of the
surviving issues (its output is a sublist of the input), and with an empty
filter list returns the input unchanged. -/
theorem filterIssues_spec :
    (∀ (issues : List Issue) (filters : List issueFilter) (issue : Issue),
        issue ∈ filterIssues issues filters ↔
          issue ∈ issues ∧ ∀ f ∈ filters, f issue = true)
    ∧ (∀ (issues : List Issue) (filters filters' : List issueFilter),
        List.Perm filters filters' →
        filterIssues issues filters = filterIssues issues filters')
    ∧ (∀ (issues : List Issue) (filters : List issueFilter),
        List.Sublist (filterIssues issues filters) issues)
    ∧ (∀ issues : List Issue, filterIssues issues [] = issues) := by
  refine ⟨fun issues filters issue => ?_, fun issues filters filters' hperm => ?_,
    fun issues filters => ?_, fun issues => ?_⟩
  · simp [filterIssues, List.mem_filter, List.all_eq_true]
  · refine List.filter_congr (fun issue _ => ?_)
    refine Bool.eq_iff_iff.mpr ?_
    simp only [List.all_eq_true]
    constructor
    · intro ha f hf
      exact ha f (hperm.mem_iff.mpr hf)
    · intro ha f hf
      exact ha f (hperm.mem_iff.mp hf)
  · exact List.filter_sublist issues
  · simp [filterIssues]

theorem filterIssues_spec_witness :
    filterIssues [cIssue1, cIssue3] [cFilterA, cFilterB] =
      filterIssues [cIssue1, cIssue3] [cFilterB, cFilterA] :=
  filterIssues_spec.2.1 [cIssue1, cIssue3] [cFilterA, cFilterB] [cFilterB, cFilterA]
    (List.Perm.swap cFilterB cFilterA [])

/-- C7: `LastRelease` wraps a failed release fetch, fails with the
not-found error when every release is a draft (or the list is empty), and
otherwise returns the first release whose draft flag is false, projected to
version and date. -/
theorem lastRelease_spec (s : ChangeSummarizer) (env : Env) :
    (∀ e, env.fetchAllReleases s.userName s.repoName = .error e →
        LastRelease s env = .error (errFetchReleasesL ++ e))
    ∧ (∀ releases, env.fetchAllReleases s.userName s.repoName = .ok releases →
        (∀ r ∈ releases, r.draft = true) →
        LastRelease s env = .error errNoLatestL)
    ∧ (∀ releases r, env.fetchAllReleases s.userName s.repoName = .ok releases →
        releases.find? (fun r => !r.draft) = some r →
        LastRelease s env = .ok { version := r.tag, date := r.date }) := by
  refine ⟨fun e he => ?_, fun releases hr hall => ?_, fun releases r hr hfind => ?_⟩
  · simp [LastRelease, he]
  · have hnone : releases.find? (fun r => !r.draft) = none := by
      refine List.find?_eq_none.mpr (fun r hm => ?_)
      simp [hall r hm]
    simp [LastRelease, hr, latestNonDraftRelease, hnone]
  · simp [LastRelease, hr, latestNonDraftRelease, hfind]

theorem lastRelease_spec_witness :
    LastRelease cAcmeSummarizer cEnv =
      .ok { version := cRelFinal.tag, date := cRelFinal.date }
    ∧ cRelDraft.draft = true ∧ cRelFinal.draft = false :=
  ⟨(lastRelease_spec cAcmeSummarizer cEnv).2.2 [cRelDraft, cRelFinal] cRelFinal rfl
      (by decide), rfl, rfl⟩

/-- C4: `Changes` has no partial-success mode: any collaborator failure
(issue fetch, since-tag resolution, or until-tag resolution when requested)
yields an error and no list; when everything resolves it returns the full
filtered and classified list (possibly empty). -/
theorem changes_all_or_nothing (s : ChangeSummarizer) (env : Env)
    (sinceRef untilRef : List Char) :
    (∀ e, env.fetchClosedIssues s.userName s.repoName = .error e →
        Changes s env sinceRef untilRef = .error e)
    ∧ (∀ issues e, env.fetchClosedIssues s.userName s.repoName = .ok issues →
        env.searchForTag s.repoPath sinceRef = .error e →
        Changes s env sinceRef untilRef = .error e)
    ∧ (∀ issues st e, env.fetchClosedIssues s.userName s.repoName = .ok issues →
        env.searchForTag s.repoPath sinceRef = .ok st →
        untilRef ≠ [] → env.searchForTag s.repoPath untilRef = .error e →
        Changes s env sinceRef untilRef = .error e)
    ∧ (∀ issues st, env.fetchClosedIssues s.userName s.repoName = .ok issues →
        env.searchForTag s.repoPath sinceRef = .ok st →
        untilRef = [] → ∃ L, Changes s env sinceRef untilRef = .ok L)
    ∧ (∀ issues st ut, env.fetchClosedIssues s.userName s.repoName = .ok issues →
        env.searchForTag s.repoPath sinceRef = .ok st →
        untilRef ≠ [] → env.searchForTag s.repoPath untilRef = .ok ut →
        ∃ L, Changes s env sinceRef untilRef = .ok L) := by
  refine ⟨fun e he => ?_, fun issues e hf he => ?_, fun issues st e hf hs hu he => ?_,
    fun issues st hf hs hu => ?_, fun issues st ut hf hs hu hut => ?_⟩
  · simp [Changes, he]
  · simp [Changes, hf, he]
  · simp [Changes, hf, hs, hu, he]
  · exact ⟨summarize s (filterIssues issues [issuesAfter st.timestamp,
      issuesWithLabel (labelSet.labels s.changeTypeByLabel)]),
      by simp [Changes, hf, hs, hu]⟩
  · exact ⟨summarize s (filterIssues issues
        ([issuesAfter st.timestamp, issuesWithLabel (labelSet.labels s.changeTypeByLabel)]
          ++ [issuesBefore ut.timestamp])),
      by simp [Changes, hf, hs, hu, hut]⟩

theorem changes_all_or_nothing_witness :
    Changes cAcmeSummarizer cEnvFail sinceRefL untilRefL = .error efetchL
    ∧ (∃ L, Changes cAcmeSummarizer cEnvEmpty sinceRefL [] = .ok L)
    ∧ Changes cAcmeSummarizer cEnvEmpty sinceRefL [] = .ok [] :=
  ⟨(changes_all_or_nothing cAcmeSummarizer cEnvFail sinceRefL untilRefL).1 efetchL rfl,
   (changes_all_or_nothing cAcmeSummarizer cEnvEmpty sinceRefL []).2.2.2.1 []
      { name := sinceRefL, timestamp := 3 } rfl (by decide) rfl,
   by decide⟩

/-- C10: `Changes` fetches the closed issues before any tag resolution:
when both the fetch and the since-tag resolution would fail, the fetch
error is returned; and with an empty `untilRef` the result depends only on
the fetch and the since-tag resolution, so the until resolution is never
consulted. -/
theorem changes_fetch_first (s : ChangeSummarizer) (sinceRef untilRef : List Char) :
    (∀ (env : Env) (e e' : List Char),
        env.fetchClosedIssues s.userName s.repoName = .error e →
        env.searchForTag s.repoPath sinceRef = .error e' →
        Changes s env sinceRef untilRef = .error e)
    ∧ (∀ env env' : Env,
        env'.fetchClosedIssues s.userName s.repoName
            = env.fetchClosedIssues s.userName s.repoName →
        env'.searchForTag s.repoPath sinceRef
            = env.searchForTag s.repoPath sinceRef →
        Changes s env sinceRef [] = Changes s env' sinceRef []) := by
  constructor
  · intro env e e' he hs
    simp [Changes, he]
  · intro env env' hf hs
    simp [Changes, hf, hs]

theorem changes_fetch_first_witness :
    Changes cAcmeSummarizer cEnvFail sinceRefL sinceRefL = .error efetchL
    ∧ Changes cAcmeSummarizer cEnv sinceRefL [] = Changes cAcmeSummarizer cEnv2 sinceRefL [] :=
  ⟨(changes_fetch_first cAcmeSummarizer sinceRefL sinceRefL).1 cEnvFail efetchL etagL rfl rfl,
   (changes_fetch_first cAcmeSummarizer sinceRefL []).2 cEnv cEnv2 rfl (by decide)⟩

/-- C2: the filter set applied by `Changes` is exactly
`issuesAfter(sinceTag.timestamp)` plus `issuesWithLabel` over all labels
known to the table, with `issuesBefore(untilTag.timestamp)` appended iff
`untilRef` is non-empty; with an empty `untilRef` the upper bound is
unconstrained, so an issue carrying a known label survives the filter
stage iff it closed strictly after the since tag's timestamp. -/
theorem changes_filter_set (s : ChangeSummarizer) (env : Env)
    (sinceRef untilRef : List Char) (issues : List Issue) (st : Tag)
    (hf : env.fetchClosedIssues s.userName s.repoName = .ok issues)
    (hs : env.searchForTag s.repoPath sinceRef = .ok st) :
    (untilRef = [] →
      Changes s env sinceRef untilRef
        = .ok (summarize s (filterIssues issues
            [issuesAfter st.timestamp,
             issuesWithLabel (labelSet.labels s.changeTypeByLabel)]))
      ∧ ∀ issue ∈ issues,
          issuesWithLabel (labelSet.labels s.changeTypeByLabel) issue = true →
          (issue ∈ filterIssues issues
              [issuesAfter st.timestamp,
               issuesWithLabel (labelSet.labels s.changeTypeByLabel)]
            ↔ st.timestamp < issue.closedAt))
    ∧ (∀ ut : Tag, untilRef ≠ [] →
        env.searchForTag s.repoPath untilRef = .ok ut →
        Changes s env sinceRef untilRef
          = .ok (summarize s (filterIssues issues
              ([issuesAfter st.timestamp,
                issuesWithLabel (labelSet.labels s.changeTypeByLabel)]
               ++ [issuesBefore ut.timestamp])))) := by
  constructor
  · intro hu
    constructor
    · simp [Changes, hf, hs, hu]
    · intro issue hmem hlab
      simp [filterIssues, List.mem_filter, hmem, issuesAfter, hlab]
  · intro ut hu hut
    simp [Changes, hf, hs, hu, hut]

theorem changes_filter_set_witness :
    Changes cAcmeSummarizer cEnv sinceRefL [] =
      .ok (summarize cAcmeSummarizer (filterIssues [cIssue1, cIssue2, cIssue3]
        [issuesAfter (3 : Int),
         issuesWithLabel (labelSet.labels cAcmeSummarizer.changeTypeByLabel)]))
    ∧ (cIssue1 ∈ filterIssues [cIssue1, cIssue2, cIssue3]
        [issuesAfter (3 : Int),
         issuesWithLabel (labelSet.labels cAcmeSummarizer.changeTypeByLabel)]
        ↔ (3 : Int) < cIssue1.closedAt) :=
  ⟨((changes_filter_set cAcmeSummarizer cEnv sinceRefL [] [cIssue1, cIssue2, cIssue3]
      { name := sinceRefL, timestamp := 3 } rfl (by decide)).1 rfl).1,
   ((changes_filter_set cAcmeSummarizer cEnv sinceRefL [] [cIssue1, cIssue2, cIssue3]
      { name := sinceRefL, timestamp := 3 } rfl (by decide)).1 rfl).2 cIssue1
      (by decide) (by decide)⟩

/-- C1: `Changes` emits exactly one summary per filtered issue whose
classification is non-empty — text is the issue title, changeTypes the
classification result, timestamp the issue's closedAt, references the
single entry #number/url — and emits nothing for an issue whose
classification is empty even when it passes every filter. -/
theorem changes_emission (s : ChangeSummarizer) (env : Env)
    (sinceRef untilRef : List Char) (issues : List Issue) (st : Tag)
    (hf : env.fetchClosedIssues s.userName s.repoName = .ok issues)
    (hs : env.searchForTag s.repoPath sinceRef = .ok st) :
    (untilRef = [] →
      Changes s env sinceRef untilRef
        = .ok (((filterIssues issues
              [issuesAfter st.timestamp,
               issuesWithLabel (labelSet.labels s.changeTypeByLabel)]).filter
                (fun issue =>
                  decide (labelSet.changeTypes s.changeTypeByLabel issue.labels ≠ []))).map
            (fun issue =>
              { text := issue.title,
                changeTypes := labelSet.changeTypes s.changeTypeByLabel issue.labels,
                timestamp := issue.closedAt,
                references := [{ text := '#' :: (Nat.repr issue.number).toList,
                                 url := issue.url }] })))
    ∧ (∀ ut : Tag, untilRef ≠ [] →
        env.searchForTag s.repoPath untilRef = .ok ut →
        Changes s env sinceRef untilRef
          = .ok (((filterIssues issues
                ([issuesAfter st.timestamp,
                  issuesWithLabel (labelSet.labels s.changeTypeByLabel)]
                 ++ [issuesBefore ut.timestamp])).filter
                  (fun issue =>
                    decide (labelSet.changeTypes s.changeTypeByLabel issue.labels ≠ []))).map
              (fun issue =>
                { text := issue.title,
                  changeTypes := labelSet.changeTypes s.changeTypeByLabel issue.labels,
                  timestamp := issue.closedAt,
                  references := [{ text := '#' :: (Nat.repr issue.number).toList,
                                   url := issue.url }] }))) := by
  constructor
  · intro hu
    rw [← summarize_eq_filter_map]
    simp [Changes, hf, hs, hu]
  · intro ut hu hut
    rw [← summarize_eq_filter_map]
    simp [Changes, hf, hs, hu, hut]

theorem changes_emission_witness :
    Changes cAcmeSummarizer cEnv sinceRefL [] =
      .ok (((filterIssues [cIssue1, cIssue2, cIssue3]
            [issuesAfter (3 : Int),
             issuesWithLabel (labelSet.labels cAcmeSummarizer.changeTypeByLabel)]).filter
              (fun issue =>
                decide (labelSet.changeTypes cAcmeSummarizer.changeTypeByLabel issue.labels ≠ []))).map
          (fun issue =>
            { text := issue.title,
              changeTypes := labelSet.changeTypes cAcmeSummarizer.changeTypeByLabel issue.labels,
              timestamp := issue.closedAt,
              references := [{ text := '#' :: (Nat.repr issue.number).toList,
                               url := issue.url }] }))
    ∧ Changes cAcmeSummarizer cEnv sinceRefL [] = .ok [cSummary1] :=
  ⟨(changes_emission cAcmeSummarizer cEnv sinceRefL [] [cIssue1, cIssue2, cIssue3]
      { name := sinceRefL, timestamp := 3 } rfl (by decide)).1 rfl,
   by decide⟩

/-- C5: constructing a summarizer from remote `git@github.com:acme/widgets.git`
yields coordinates acme/widgets, and `TagURL`/`ChangesURL` produce
`https://github.com/acme/widgets/tree/<tag>` and
`https://github.com/acme/widgets/compare/<since>...<until>`. -/
theorem summarizer_urls_acme (path : List Char) (s : ChangeSummarizer)
    (hc : NewChangeSummarizer (.ok urlAcme) path = .ok s) :
    s.userName = acmeL ∧ s.repoName = widgetsL
    ∧ (∀ tag, TagURL s tag =
        httpsGithubL ++ acmeL ++ slashL ++ widgetsL ++ treeSegL ++ tag)
    ∧ TagURL s v120L = urlTreeV120L
    ∧ (∀ since' until', ChangesURL s since' until' =
        httpsGithubL ++ acmeL ++ slashL ++ widgetsL ++ compareSegL ++
          since' ++ dotsL ++ until') := by
  have hNCS : NewChangeSummarizer (.ok urlAcme) path =
      .ok { repoPath := path, userName := acmeL, repoName := widgetsL,
            changeTypeByLabel := defaultLabelChangeTypes } := rfl
  rw [hNCS] at hc
  injection hc with hc
  subst hc
  exact ⟨rfl, rfl, fun tag => rfl, rfl, fun since' until' => rfl⟩

theorem summarizer_urls_acme_witness :
    cAcmeSummarizer.userName = acmeL ∧ cAcmeSummarizer.repoName = widgetsL
    ∧ TagURL cAcmeSummarizer v120L = urlTreeV120L :=
  ⟨(summarizer_urls_acme [] cAcmeSummarizer (by decide)).1,
   (summarizer_urls_acme [] cAcmeSummarizer (by decide)).2.1,
   (summarizer_urls_acme [] cAcmeSummarizer (by decide)).2.2.2.1⟩

/-- C6 counterexample: the URL `git@a/b.git` does not match the SSH shape
`git@host:owner/repo.git` (it contains no `:`), yet construction succeeds,
parsing owner `git@a` and repo `b`. -/
theorem newChangeSummarizer_nonssh_accepted :
    matchesSshRemoteShape urlNoColon = false
    ∧ NewChangeSummarizer (.ok urlNoColon) [] =
        .ok { repoPath := [], userName := gitAtAL, repoName := bL,
              changeTypeByLabel := defaultLabelChangeTypes } := by
  constructor
  · decide
  · decide

/-- C6 (amended): construction from `.ok url` fails exactly when the URL
does not start with `git@`, or the last `:`-field (after trimming `.git`)
does not split into exactly two `/`-segments, or the extracted owner or
repo is empty; matching the full SSH shape is not required for success. -/
theorem newChangeSummarizer_failure_iff (url path : List Char) :
    (∃ e, NewChangeSummarizer (.ok url) path = .error e) ↔
      (gitAtL.isPrefixOf url = false
        ∨ (splitOnChar '/' (lastD (splitOnChar ':' (trimSuffix url dotGitL)))).length ≠ 2
        ∨ (extractGithubUserAndRepo url).1 = []
        ∨ (extractGithubUserAndRepo url).2 = []) := by
  constructor
  · rintro ⟨e, he⟩
    by_cases hcond : (extractGithubUserAndRepo url).1 = []
        ∨ (extractGithubUserAndRepo url).2 = []
    · rcases hcond with hh | hh
      · exact Or.inr (Or.inr (Or.inl hh))
      · exact Or.inr (Or.inr (Or.inr hh))
    · exfalso
      simp only [NewChangeSummarizer] at he
      rw [if_neg hcond] at he
      exact Except.noConfusion he
  · intro hd
    have hempty : (extractGithubUserAndRepo url).1 = []
        ∨ (extractGithubUserAndRepo url).2 = [] := by
      rcases hd with hh | hh | hh | hh
      · left
        simp [extractGithubUserAndRepo, hh]
      · by_cases hp : gitAtL.isPrefixOf url = true
        · left
          simp [extractGithubUserAndRepo, hp, hh]
        · left
          simp [extractGithubUserAndRepo, Bool.eq_false_iff.mpr hp]
      · exact Or.inl hh
      · exact Or.inr hh
    refine ⟨parseRepoErr url, ?_⟩
    simp only [NewChangeSummarizer]
    rw [if_pos hempty]

/-- C9: the host component of an SSH remote URL is discarded: construction
from `git@<h>:owner/repo.git` succeeds with the same coordinates for every
host `h`, and `TagURL`/`ChangesURL` always produce URLs beginning with
`https://github.com/`, never mentioning `h`. -/
theorem host_discarded (h path tag since' until' : List Char) :
    NewChangeSummarizer
        (.ok (((gitAtL ++ h) ++ ':' :: (ownerL ++ '/' :: repoL)) ++ dotGitL)) path
      = .ok { repoPath := path, userName := ownerL, repoName := repoL,
              changeTypeByLabel := defaultLabelChangeTypes }
    ∧ TagURL { repoPath := path, userName := ownerL, repoName := repoL,
               changeTypeByLabel := defaultLabelChangeTypes } tag
        = httpsGithubL ++ ownerL ++ slashL ++ repoL ++ treeSegL ++ tag
    ∧ httpsGithubL.isPrefixOf
        (TagURL { repoPath := path, userName := ownerL, repoName := repoL,
                  changeTypeByLabel := defaultLabelChangeTypes } tag) = true
    ∧ ChangesURL { repoPath := path, userName := ownerL, repoName := repoL,
                   changeTypeByLabel := defaultLabelChangeTypes } since' until'
        = httpsGithubL ++ ownerL ++ slashL ++ repoL ++ compareSegL ++
            since' ++ dotsL ++ until'
    ∧ httpsGithubL.isPrefixOf
        (ChangesURL { repoPath := path, userName := ownerL, repoName := repoL,
                      changeTypeByLabel := defaultLabelChangeTypes } since' until') = true := by
  have hex := extractGithubUserAndRepo_ssh h ownerL repoL
    (by decide) (by decide) (by decide) (by decide)
  refine ⟨?_, rfl, ?_, rfl, ?_⟩
  · simp only [NewChangeSummarizer, hex]
    rw [if_neg (by decide)]
  · exact isPrefixOf_append_self httpsGithubL _
  · exact isPrefixOf_append_self httpsGithubL _
